import Mathlib

/-!
Shallow embedding of the rush shell's arithmetic-expression engine
(src/expr/{types,lexer,parser,mod}.rs), word expander (src/lang/word.rs),
subprocess launcher (src/jobs/spawn.rs) and job manager (src/lang/exec.rs),
together with theorems settling the specification claims about them.

Modelling conventions:
- Rust `f64` values are modelled by the exact rational type `Q` below.  All
  numeric values appearing in the claims are small integers, on which `f64`
  arithmetic is exact, so the rational model agrees with the code there.
- Rust panics (`unreachable!`, `unimplemented!`, `unwrap` failures, index
  out of bounds) are modelled by `Option.none` / a dedicated `panic`
  constructor of the result type.
- Recursive procedures whose Rust termination argument is not structural
  are given an explicit fuel parameter; theorems about them quantify over
  or instantiate the fuel.
-/

namespace Rush

/-- Exact rationals standing in for Rust `f64` (see module comment). `den = 0`
with `num = ±1` plays the role of `±inf` produced by division by zero. -/
structure Q where
  num : Int
  den : Nat
deriving DecidableEq, Repr

/-- Normalising constructor: divide out the gcd. -/
def Q.mk' (n : Int) (d : Nat) : Q :=
  let g := Nat.gcd n.natAbs d
  if g = 0 then ⟨0, 1⟩ else ⟨n.tdiv (g : Int), d / g⟩

def Q.ofInt (n : Int) : Q := ⟨n, 1⟩

instance (n : Nat) : OfNat Q n := ⟨⟨(n : Int), 1⟩⟩

def Q.add (a b : Q) : Q :=
  Q.mk' (a.num * (b.den : Int) + b.num * (a.den : Int)) (a.den * b.den)

def Q.sub (a b : Q) : Q :=
  Q.mk' (a.num * (b.den : Int) - b.num * (a.den : Int)) (a.den * b.den)

def Q.mul (a b : Q) : Q := Q.mk' (a.num * b.num) (a.den * b.den)

def Q.neg (a : Q) : Q := ⟨-a.num, a.den⟩

def Q.div (a b : Q) : Q :=
  if b.num < 0 then Q.mk' (-(a.num * (b.den : Int))) (a.den * b.num.natAbs)
  else Q.mk' (a.num * (b.den : Int)) (a.den * b.num.natAbs)

/-- Comparison by cross multiplication (denominators are non-negative). -/
def Q.blt (a b : Q) : Bool := a.num * (b.den : Int) < b.num * (a.den : Int)

def Q.ble (a b : Q) : Bool := a.num * (b.den : Int) ≤ b.num * (a.den : Int)

def Q.beq (a b : Q) : Bool := a.num * (b.den : Int) = b.num * (a.den : Int)

/-- Rust `as isize`: truncation toward zero (saturation at the extremes of
`isize` is not modelled; no claim involves values of that size). -/
def Q.trunc (q : Q) : Int := q.num.tdiv (q.den : Int)

/-- Rust `f64` `%`: `a - trunc(a/b)*b`; for `b = 0` the code yields NaN,
here `a` (no claim divides by zero). -/
def Q.fmod (a b : Q) : Q := Q.sub a (Q.mul (Q.ofInt (Q.trunc (Q.div a b))) b)

def boolToQ (b : Bool) : Q := if b then 1 else 0

/-- Two's-complement bitwise operations on mathematical integers, matching
Rust's `&`, `|`, `^`, `!` on `isize` (width overflow not modelled). -/
def intAnd : Int → Int → Int
  | .ofNat m, .ofNat n => .ofNat (Nat.land m n)
  | .ofNat m, .negSucc n => .ofNat (Nat.ldiff m n)
  | .negSucc m, .ofNat n => .ofNat (Nat.ldiff n m)
  | .negSucc m, .negSucc n => .negSucc (Nat.lor m n)

def intOr : Int → Int → Int
  | .ofNat m, .ofNat n => .ofNat (Nat.lor m n)
  | .ofNat m, .negSucc n => .negSucc (Nat.ldiff n m)
  | .negSucc m, .ofNat n => .negSucc (Nat.ldiff m n)
  | .negSucc m, .negSucc n => .negSucc (Nat.land m n)

def intXor : Int → Int → Int
  | .ofNat m, .ofNat n => .ofNat (Nat.xor m n)
  | .ofNat m, .negSucc n => .negSucc (Nat.xor m n)
  | .negSucc m, .ofNat n => .negSucc (Nat.xor m n)
  | .negSucc m, .negSucc n => .ofNat (Nat.xor m n)

def intNot (v : Int) : Int := -(v + 1)

/-- Rust `<<` on `isize` (shift counts are non-negative in all claims). -/
def intShiftLeft (v s : Int) : Int := v * ((2 : Int) ^ s.toNat)

/-- Rust `>>` on `isize`: arithmetic right shift. -/
def intShiftRight (v s : Int) : Int := Int.shiftRight v s.toNat

/-- First-match association-list lookup; `BTreeMap` insertion is modelled by
consing, so the most recent binding for a key wins. -/
def mapGet {κ α : Type} [DecidableEq κ] : List (κ × α) → κ → Option α
  | [], _ => none
  | (k, v) :: rest, key => if k = key then some v else mapGet rest key

/-- `BTreeMap::insert` (overwrite-or-insert) under the first-match `mapGet`. -/
def mapSet {κ α : Type} (m : List (κ × α)) (k : κ) (v : α) : List (κ × α) :=
  (k, v) :: m

/-- The variable store of `env/variables.rs`: names and values are strings
(`OsString` non-UTF8 contents are out of scope). -/
abbrev Store := List (String × String)

/-- `Variables::value`: the empty string when the name is absent. -/
def storeValueD (s : Store) (k : String) : String := (mapGet s k).getD ""

/-- Evaluator state: the variable store plus an instrumentation log recording
every `Variables::define` call in order (name, value). -/
structure EState where
  vars : Store
  log : List (String × String)
deriving DecidableEq, Repr

/-- `Variables::define`, also appending to the write log. -/
def defineVar (st : EState) (k v : String) : EState :=
  ⟨mapSet st.vars k v, st.log ++ [(k, v)]⟩

/- Numeric text: the `lexer::float` nom parser of src/expr/lexer.rs, used by
the evaluator to read variables, and decimal rendering matching Rust's `f64`
`Display` on the exact-decimal values the claims use. -/

def digitsToNat (ds : List Char) : Nat :=
  ds.foldl (fun a c => 10 * a + (c.toNat - 48)) 0

def takeWhile1 (p : Char → Bool) (s : List Char) :
    Option (List Char × List Char) :=
  match s.takeWhile p with
  | [] => none
  | ds => some (ds, s.dropWhile p)

def isHexDigitC (c : Char) : Bool :=
  ('0' ≤ c ∧ c ≤ '9') ∨ ('a' ≤ c ∧ c ≤ 'f') ∨ ('A' ≤ c ∧ c ≤ 'F')

def isOctDigitC (c : Char) : Bool := '0' ≤ c ∧ c ≤ '7'

def isBinDigitC (c : Char) : Bool := c = '0' ∨ c = '1'

def hexVal (c : Char) : Nat :=
  if '0' ≤ c ∧ c ≤ '9' then c.toNat - 48
  else if 'a' ≤ c ∧ c ≤ 'f' then c.toNat - 87
  else c.toNat - 55

def hexDigitsToNat (ds : List Char) : Nat :=
  ds.foldl (fun a c => 16 * a + hexVal c) 0

def octDigitsToNat (ds : List Char) : Nat :=
  ds.foldl (fun a c => 8 * a + (c.toNat - 48)) 0

def binDigitsToNat (ds : List Char) : Nat :=
  ds.foldl (fun a c => 2 * a + (c.toNat - 48)) 0

/-- nom `ws!` whitespace: space, tab, CR, LF. -/
def skipWs (s : List Char) : List Char :=
  s.dropWhile (fun c => c = ' ' ∨ c = '\t' ∨ c = '\r' ∨ c = '\n')

/-- `exp_part`: `e`/`E`, optional sign, at least one digit. -/
def parseExpPart : List Char → Option (Int × List Char)
  | c :: rest =>
    if c = 'e' ∨ c = 'E' then
      match rest with
      | '+' :: r2 =>
        (takeWhile1 Char.isDigit r2).map fun p => (((digitsToNat p.1 : Nat) : Int), p.2)
      | '-' :: r2 =>
        (takeWhile1 Char.isDigit r2).map fun p => (-((digitsToNat p.1 : Nat) : Int), p.2)
      | r2 =>
        (takeWhile1 Char.isDigit r2).map fun p => (((digitsToNat p.1 : Nat) : Int), p.2)
    else none
  | [] => none

/-- The exact value of mantissa digits `ds1.ds2` times `10^ex` (Rust parses
the recognised slice with `str::parse::<f64>`; rounding to `f64` is not
modelled — exact on the claims' inputs). -/
def decimalValue (ds1 ds2 : List Char) (ex : Int) : Q :=
  let m : Int := (digitsToNat (ds1 ++ ds2) : Nat)
  let e : Int := ex - (ds2.length : Int)
  if 0 ≤ e then Q.ofInt (m * (10 : Int) ^ e.toNat)
  else Q.mk' m ((10 : Nat) ^ (-e).toNat)

/-- `decimal`: `digits . digits? exp?` or `digits? . digits exp?` or
`digits exp` (the three nom alternatives, in source order). -/
def parseDecimal (s : List Char) : Option (Q × List Char) :=
  (match takeWhile1 Char.isDigit s with
   | some (ds1, '.' :: r1) =>
     let ds2 := r1.takeWhile Char.isDigit
     let r2 := r1.dropWhile Char.isDigit
     match parseExpPart r2 with
     | some (e, r3) => some (decimalValue ds1 ds2 e, r3)
     | none => some (decimalValue ds1 ds2 0, r2)
   | _ => none) <|>
  (let ds1 := s.takeWhile Char.isDigit
   match s.dropWhile Char.isDigit with
   | '.' :: r1 =>
     match takeWhile1 Char.isDigit r1 with
     | some (ds2, r2) =>
       match parseExpPart r2 with
       | some (e, r3) => some (decimalValue ds1 ds2 e, r3)
       | none => some (decimalValue ds1 ds2 0, r2)
     | none => none
   | _ => none) <|>
  (match takeWhile1 Char.isDigit s with
   | some (ds, r1) =>
     (parseExpPart r1).map fun p => (decimalValue ds [] p.1, p.2)
   | none => none)

def parseRadix (u l : Char) (p : Char → Bool) (conv : List Char → Nat)
    (s : List Char) : Option (Int × List Char) :=
  match s with
  | '0' :: c :: rest =>
    if c = u ∨ c = l then
      (takeWhile1 p rest).map fun q => (((conv q.1 : Nat) : Int), q.2)
    else none
  | _ => none

/-- `integer`: leading `ws!`, then hexadecimal, octal, binary or decimal, in
source order. -/
def parseInteger (s0 : List Char) : Option (Int × List Char) :=
  let s := skipWs s0
  parseRadix 'X' 'x' isHexDigitC hexDigitsToNat s <|>
  parseRadix 'O' 'o' isOctDigitC octDigitsToNat s <|>
  parseRadix 'B' 'b' isBinDigitC binDigitsToNat s <|>
  (takeWhile1 Char.isDigit s).map fun p => (((digitsToNat p.1 : Nat) : Int), p.2)

/-- `float`: optional whitespace-wrapped sign, then `decimal` or `integer`. -/
def parseFloat (s0 : List Char) : Option (Q × List Char) :=
  let signed : Option Char × List Char :=
    match skipWs s0 with
    | '+' :: r => (some '+', skipWs r)
    | '-' :: r => (some '-', skipWs r)
    | _ => (none, s0)
  let s1 := signed.2
  (parseDecimal s1 <|> (parseInteger s1).map fun p => (Q.ofInt p.1, p.2)).map
    fun p => (if signed.1 = some '-' then Q.neg p.1 else p.1, p.2)

def parseFloatQ (s : String) : Option Q := (parseFloat s.data).map Prod.fst

/-- `lexer::float(..).map(|(_, y)| y as f64).unwrap_or(0.0)` applied to a
variable's stored text. -/
def floatValueD (s : String) : Q := (parseFloatQ s).getD 0

def natToCharsAux : Nat → Nat → List Char
  | 0, _ => []
  | _ + 1, 0 => []
  | fuel + 1, n => natToCharsAux fuel (n / 10) ++ [Nat.digitChar (n % 10)]

def natToString (n : Nat) : String :=
  if n = 0 then "0" else ⟨natToCharsAux 40 n⟩

def intToString (i : Int) : String :=
  if i < 0 then "-" ++ natToString i.natAbs else natToString i.natAbs

def renderFracDigits : Nat → Nat → Nat → List Char
  | 0, _, _ => []
  | _ + 1, 0, _ => []
  | fuel + 1, r, d => Nat.digitChar (r * 10 / d) :: renderFracDigits fuel (r * 10 % d) d

/-- Rust `f64` `Display` (`to_string`) restricted to the exact-decimal values
the code stores in the claims at hand: integers render without a decimal
point, other decimals with their exact fractional digits. -/
def renderNum (q : Q) : String :=
  if q.den = 1 then intToString q.num
  else (if q.num < 0 then "-" else "") ++ natToString (q.num.natAbs / q.den) ++
    "." ++ String.mk (renderFracDigits 40 (q.num.natAbs % q.den) q.den)

/- The expression AST of src/expr/types.rs. -/

inductive Operator
  | Add | Subtract | Multiply | Divide | Modulo
  | LeftShift | RightShift
  | LessThan | LessThanOrEqual | GreaterThan | GreaterThanOrEqual
  | Equal | NotEqual
  | BitAnd | BitExclusiveOr | BitOr
  | And | Or
  | AssignAdd | AssignSubtract | AssignMultiply | AssignDivide | AssignModulo
  | AssignLeftShift | AssignRightShift
  | AssignBitAnd | AssignBitExclusiveOr | AssignBitOr
  | Assign
  | Increment | Decrement
  | Negate | Not
deriving DecidableEq, Repr

/-- The `Precedence` enum, constructors in the source's declaration order
(`BitOr` before `BitExclusiveOr`, exactly as in src/expr/types.rs). -/
inductive Precedence
  | Minimum | Prefix | Suffix
  | Product | Sum | BitShift | Relational | Equality
  | BitAnd | BitOr | BitExclusiveOr
  | LogicalAnd | LogicalOr
  | TernaryConditional | Assignment
  | Parentheses | Separator
deriving DecidableEq, Repr

/-- Enum discriminant, as used by the derived `Ord` (`self as isize`). -/
def Precedence.toNat : Precedence → Nat
  | .Minimum => 0
  | .Prefix => 1
  | .Suffix => 2
  | .Product => 3
  | .Sum => 4
  | .BitShift => 5
  | .Relational => 6
  | .Equality => 7
  | .BitAnd => 8
  | .BitOr => 9
  | .BitExclusiveOr => 10
  | .LogicalAnd => 11
  | .LogicalOr => 12
  | .TernaryConditional => 13
  | .Assignment => 14
  | .Parentheses => 15
  | .Separator => 16

/-- The `Ord` implementation compares discriminants. -/
def Precedence.blt (a b : Precedence) : Bool := a.toNat < b.toNat

def Precedence.from_operator : Operator → Precedence
  | .Multiply | .Divide | .Modulo => .Product
  | .Add | .Subtract => .Sum
  | .LeftShift | .RightShift => .BitShift
  | .Equal | .NotEqual => .Equality
  | .BitAnd => .BitAnd
  | .BitOr => .BitOr
  | .BitExclusiveOr => .BitExclusiveOr
  | .And => .LogicalAnd
  | .Or => .LogicalOr
  | .LessThan | .LessThanOrEqual | .GreaterThan | .GreaterThanOrEqual => .Relational
  | .Assign | .AssignAdd | .AssignBitAnd | .AssignBitExclusiveOr
  | .AssignBitOr | .AssignDivide | .AssignLeftShift | .AssignModulo
  | .AssignMultiply | .AssignRightShift | .AssignSubtract => .Assignment
  | .Increment => .Prefix
  | .Decrement => .Prefix
  | .Negate => .Prefix
  | .Not => .Prefix

/-- `Operator::is_prefix`. -/
def isPrefixOp : Operator → Bool
  | .Not | .Negate | .Increment | .Decrement | .Add | .Subtract => true
  | _ => false

/-- `Operator::is_suffix`. -/
def isSuffixOp : Operator → Bool
  | .Increment | .Decrement => true
  | _ => false

inductive Expr
  | Number (n : Q)
  | Variable (name : String)
  | Infix (left : Expr) (operator : Operator) (right : Expr)
  | Prefix (operator : Operator) (right : Expr)
  | Suffix (operator : Operator) (left : Expr)
  | Condition (condition on_true on_false : Expr)
deriving DecidableEq, Repr

/-- `Expr::as_boolean`: a `Number` is true iff non-zero, anything else false. -/
def asBoolean : Expr → Bool
  | .Number n => !(Q.beq n 0)
  | _ => false

/- The evaluator of src/expr/mod.rs (`Expr::evaluate` and its helpers
`modify_variable`, `assign_variable`, `modify_number`, `modify_number_i`).
Each function carries fuel, decremented at every call; `none` models both
fuel exhaustion and Rust panics (`unreachable!`). -/

mutual

/-- `Expr::evaluate`. -/
def evaluateF : Nat → Expr → EState → Option (Expr × EState)
  | 0, _, _ => none
  | fuel + 1, e, st =>
    match e with
    | .Number n => some (.Number n, st)
    | .Variable n => some (.Number (floatValueD (storeValueD st.vars n)), st)
    | .Condition c t f => do
      let (cv, st1) ← evaluateF fuel c st
      if asBoolean cv then evaluateF fuel t st1 else evaluateF fuel f st1
    | .Prefix op right =>
      match op with
      | .Increment => modify_variableF fuel right st (fun v => Q.add v 1)
      | .Decrement => modify_variableF fuel right st (fun v => Q.sub v 1)
      | .Not => if asBoolean right then some (.Number 0, st) else some (.Number 1, st)
      | .Negate => modify_numberF fuel right st (fun x => Q.ofInt (intNot (Q.trunc x)))
      | .Add => evaluateF fuel right st
      | .Subtract => modify_numberF fuel right st Q.neg
      | _ => none
    | .Suffix op left => do
      let (copy, st1) ← evaluateF fuel left st
      let (_, st2) ←
        (match op with
         | .Increment => modify_variableF fuel left st1 (fun v => Q.add v 1)
         | .Decrement => modify_variableF fuel left st1 (fun v => Q.sub v 1)
         | _ => none)
      some (copy, st2)
    | .Infix l op r => do
      let (rres, st1) ← evaluateF fuel r st
      let right ← (match rres with | .Number v => some v | _ => none)
      match op with
      | .Add => modify_numberF fuel l st1 (fun v => Q.add v right)
      | .Subtract => modify_numberF fuel l st1 (fun v => Q.sub v right)
      | .Multiply => modify_numberF fuel l st1 (fun v => Q.mul v right)
      | .Divide => modify_numberF fuel l st1 (fun v => Q.div v right)
      | .Modulo => modify_numberF fuel l st1 (fun v => Q.fmod v right)
      | .LeftShift => modify_number_iF fuel l st1 (fun v => intShiftLeft v (Q.trunc right))
      | .RightShift => modify_number_iF fuel l st1 (fun v => intShiftRight v (Q.trunc right))
      | .LessThan => modify_numberF fuel l st1 (fun v => boolToQ (Q.blt v right))
      | .LessThanOrEqual => modify_numberF fuel l st1 (fun v => boolToQ (Q.ble v right))
      | .GreaterThan => modify_numberF fuel l st1 (fun v => boolToQ (Q.blt right v))
      | .GreaterThanOrEqual => modify_numberF fuel l st1 (fun v => boolToQ (Q.ble right v))
      | .Equal => modify_numberF fuel l st1 (fun v => boolToQ (Q.beq v right))
      | .NotEqual => modify_numberF fuel l st1 (fun v => boolToQ (!(Q.beq v right)))
      | .BitAnd => modify_number_iF fuel l st1 (fun v => intAnd v (Q.trunc right))
      | .BitExclusiveOr => modify_number_iF fuel l st1 (fun v => intXor v (Q.trunc right))
      | .BitOr => modify_number_iF fuel l st1 (fun v => intOr v (Q.trunc right))
      | .And => do
        let (lv, st2) ← evaluateF fuel l st1
        if asBoolean lv then do
          let (rv, st3) ← evaluateF fuel r st2
          if asBoolean rv then some (.Number 1, st3) else some (.Number 0, st3)
        else some (.Number 0, st2)
      | .Or => do
        let (lv, st2) ← evaluateF fuel l st1
        if asBoolean lv then some (.Number 1, st2)
        else do
          let (rv, st3) ← evaluateF fuel r st2
          if asBoolean rv then some (.Number 1, st3) else some (.Number 0, st3)
      | .Assign => assign_variableF fuel l st1 (fun _ => right)
      | .AssignAdd => assign_variableF fuel l st1 (fun v => Q.add v right)
      | .AssignSubtract => assign_variableF fuel l st1 (fun v => Q.sub v right)
      | .AssignMultiply => assign_variableF fuel l st1 (fun v => Q.mul v right)
      | .AssignDivide => assign_variableF fuel l st1 (fun v => Q.div v right)
      | .AssignModulo => assign_variableF fuel l st1 (fun v => Q.fmod v right)
      | .AssignBitAnd =>
        assign_variableF fuel l st1 (fun v => Q.ofInt (intAnd (Q.trunc v) (Q.trunc right)))
      | .AssignBitExclusiveOr =>
        assign_variableF fuel l st1 (fun v => Q.ofInt (intXor (Q.trunc v) (Q.trunc right)))
      | .AssignBitOr =>
        assign_variableF fuel l st1 (fun v => Q.ofInt (intOr (Q.trunc v) (Q.trunc right)))
      | .AssignLeftShift =>
        assign_variableF fuel l st1 (fun v => Q.ofInt (intShiftLeft (Q.trunc v) (Q.trunc right)))
      | .AssignRightShift =>
        assign_variableF fuel l st1 (fun v => Q.ofInt (intShiftRight (Q.trunc v) (Q.trunc right)))
      | _ => none

/-- `Expr::modify_variable`. -/
def modify_variableF : Nat → Expr → EState → (Q → Q) → Option (Expr × EState)
  | 0, _, _, _ => none
  | fuel + 1, e, st, f =>
    match e with
    | .Variable n =>
      let newv := f (floatValueD (storeValueD st.vars n))
      some (.Number newv, defineVar st n (renderNum newv))
    | _ => do
      let (me, st1) ← evaluateF fuel e st
      match me with
      | .Variable n =>
        let newv := f (floatValueD (storeValueD st1.vars n))
        some (.Number newv, defineVar st1 n (renderNum newv))
      | other => some (other, st1)

/-- `Expr::assign_variable` (the two-iteration loop unrolled). -/
def assign_variableF : Nat → Expr → EState → (Q → Q) → Option (Expr × EState)
  | 0, _, _, _ => none
  | fuel + 1, e, st, f =>
    match e with
    | .Variable n =>
      let newv := f (floatValueD (storeValueD st.vars n))
      some (.Number newv, defineVar st n (renderNum newv))
    | _ => do
      let (e1, st1) ← evaluateF fuel e st
      match e1 with
      | .Variable n =>
        let newv := f (floatValueD (storeValueD st1.vars n))
        some (.Number newv, defineVar st1 n (renderNum newv))
      | other => evaluateF fuel other st1

/-- `Expr::modify_number`. -/
def modify_numberF : Nat → Expr → EState → (Q → Q) → Option (Expr × EState)
  | 0, _, _, _ => none
  | fuel + 1, e, st, f => do
    let (me, st1) ← evaluateF fuel e st
    match me with
    | .Number n => some (.Number (f n), st1)
    | other => some (other, st1)

/-- `Expr::modify_number_i`. -/
def modify_number_iF : Nat → Expr → EState → (Int → Int) → Option (Expr × EState)
  | 0, _, _, _ => none
  | fuel + 1, e, st, f => do
    let (me, st1) ← evaluateF fuel e st
    match me with
    | .Number n => some (.Number (Q.ofInt (f (Q.trunc n))), st1)
    | other => some (other, st1)

end

/- The expression lexer (src/expr/lexer.rs `TokenStream`) and Pratt parser
(src/expr/parser.rs `Parser`). -/

/-- `Token` of src/expr/types.rs (the arithmetic token kind). -/
inductive ExprToken
  | Operator (op : Operator)
  | Variable (name : String)
  | Number (n : Int)
  | FloatingNumber (n : Q)
  | Comma
  | QuestionMark
  | Colon
  | LeftParen
  | RightParen
deriving DecidableEq, Repr

def Precedence.from_token : ExprToken → Option Precedence
  | .Number _ => none
  | .FloatingNumber _ => none
  | .Variable _ => none
  | .Operator o => some (Precedence.from_operator o)
  | .Comma => some .Separator
  | .Colon | .QuestionMark => some .TernaryConditional
  | .LeftParen | .RightParen => some .Parentheses

/-- `ErrorKind` of src/expr/errors.rs.  The diagnostic `Context` wrapper
(offending token text, column, line) is not modelled; the claims compare
error kinds only. -/
inductive ExprErrorKind
  | InvalidCharacter (c : Char)
  | InvalidToken
  | InvalidPrefixOperator
  | InvalidInfixOperator
  | ExpectingTernaryElse
  | ExpectingRightParentheses
  | InvalidNumber
  | UnexpectedEof
deriving DecidableEq, Repr

/-- Result of fallible Rust code: `ok`/`err` mirror `Result`, `panic` models
`unreachable!`/`unimplemented!`/failing `unwrap` (and fuel exhaustion). -/
inductive PRes (ε α : Type) where
  | ok (a : α)
  | err (e : ε)
  | panic
deriving DecidableEq, Repr

def PRes.bind {ε α β : Type} : PRes ε α → (α → PRes ε β) → PRes ε β
  | .ok a, f => f a
  | .err e, _ => .err e
  | .panic, _ => .panic

instance {ε : Type} : Monad (PRes ε) where
  pure := .ok
  bind := PRes.bind

/-- The operator alternatives of `named!(operator ...)`, in source order
(longest-match by ordering). -/
def operatorTable : List (String × Operator) :=
  [(">>=", .AssignRightShift), ("<<=", .AssignLeftShift),
   ("<<", .LeftShift), (">>", .RightShift),
   ("==", .Equal), ("!=", .NotEqual),
   ("&&", .And), ("||", .Or),
   ("++", .Increment), ("--", .Decrement),
   ("+=", .AssignAdd), ("-=", .AssignSubtract), ("*=", .AssignMultiply),
   ("/=", .AssignDivide), ("%=", .AssignModulo),
   ("&=", .AssignBitAnd), ("|=", .AssignBitOr), ("^=", .AssignBitExclusiveOr),
   ("<=", .LessThanOrEqual), (">=", .GreaterThanOrEqual),
   ("=", .Assign), ("<", .LessThan), (">", .GreaterThan),
   ("^", .BitExclusiveOr), ("|", .BitOr), ("&", .BitAnd),
   ("+", .Add), ("-", .Subtract), ("*", .Multiply), ("/", .Divide),
   ("%", .Modulo), ("~", .Negate), ("!", .Not)]

def stripPrefixL : List Char → List Char → Option (List Char)
  | [], s => some s
  | c :: cs, d :: ds => if c = d then stripPrefixL cs ds else none
  | _ :: _, [] => none

def parseOpGo : List (String × Operator) → List Char → Option (Operator × List Char)
  | [], _ => none
  | (t, op) :: rest, s =>
    match stripPrefixL t.data s with
    | some r => some (op, r)
    | none => parseOpGo rest s

/-- One alternative of the `TokenStream::next` lexer `alt!`, in source order:
decimal float, integer, identifier, operator, punctuation. -/
def tryToken (s : List Char) : Option (ExprToken × List Char) :=
  ((parseDecimal s).map fun p => (ExprToken.FloatingNumber p.1, p.2)) <|>
  ((parseInteger s).map fun p => (ExprToken.Number p.1, p.2)) <|>
  ((takeWhile1 (fun c => c.isAlphanum ∨ c = '_') s).map
    fun p => (ExprToken.Variable (String.mk p.1), p.2)) <|>
  ((parseOpGo operatorTable s).map fun p => (ExprToken.Operator p.1, p.2)) <|>
  (match s with
   | ',' :: r => some (.Comma, r)
   | '?' :: r => some (.QuestionMark, r)
   | ':' :: r => some (.Colon, r)
   | '(' :: r => some (.LeftParen, r)
   | ')' :: r => some (.RightParen, r)
   | _ => none)

/-- `TokenStream::next`: `none` at end of input, a lexer error when the
remaining input starts with an unrecognised character. -/
def lexNext (s : List Char) : Option (Except ExprErrorKind (ExprToken × List Char)) :=
  match tryToken (skipWs s) with
  | some (t, r) => some (.ok (t, skipWs r))
  | none =>
    match s with
    | [] => none
    | c :: _ => some (.error (.InvalidCharacter c))

/-- `Parser` state: the unread input and the one-token lookahead. -/
structure ParserSt where
  rest : List Char
  peek : Option ExprToken
deriving DecidableEq, Repr

/-- `Parser::next_token`: returns the current peek, refills it from the
lexer. -/
def nextToken (p : ParserSt) : PRes ExprErrorKind (Option ExprToken × ParserSt) :=
  match lexNext p.rest with
  | none => .ok (p.peek, ⟨[], none⟩)
  | some (.ok (t, r)) => .ok (p.peek, ⟨r, some t⟩)
  | some (.error e) => .err e

mutual

/-- `Parser::parse_precedence` up to the infix loop: primary parsing
(number, identifier, prefix operator, parenthesised subexpression), the
suffix-operator wrap, and the early returns on `)` / end of input. -/
def parsePrecF : Nat → Precedence → ParserSt → PRes ExprErrorKind (Option Expr × ParserSt)
  | 0, _, _ => .panic
  | fuel + 1, prec, p0 => do
    let (tok, p1) ← nextToken p0
    match tok with
    | none => pure (none, p1)
    | some t => do
      let (left, p2) ←
        (match t with
         | .Number n => pure (Expr.Number (Q.ofInt n), p1)
         | .FloatingNumber n => pure (Expr.Number n, p1)
         | .Variable n => pure (Expr.Variable n, p1)
         | .Operator op =>
           if isPrefixOp op then do
             let (right, p2) ← mustParsePrecF fuel .Prefix p1
             pure (Expr.Prefix op right, p2)
           else .err .InvalidPrefixOperator
         | .LeftParen => do
           let (inner, p2) ← mustParsePrecF fuel .Parentheses p1
           let (tok2, p3) ← nextToken p2
           match tok2 with
           | some .RightParen => pure (inner, p3)
           | _ => .err .ExpectingRightParentheses
         | _ => .err .InvalidToken)
      match p2.peek with
      | some (.Operator op) =>
        if isSuffixOp op then do
          let (_, p3) ← nextToken p2
          beforeLoopF fuel prec (Expr.Suffix op left) p3
        else beforeLoopF fuel prec left p2
      | some .RightParen => pure (some left, p2)
      | some _ => beforeLoopF fuel prec left p2
      | none => pure (some left, p2)

/-- `Parser::must_parse_precedence`. -/
def mustParsePrecF : Nat → Precedence → ParserSt → PRes ExprErrorKind (Expr × ParserSt)
  | 0, _, _ => .panic
  | fuel + 1, prec, p => do
    let (r, p1) ← parsePrecF fuel prec p
    match r with
    | some v => pure (v, p1)
    | none => .err .UnexpectedEof

/-- One iteration of the infix `while` loop of `parse_precedence`. -/
def parseLoopF : Nat → Precedence → Expr → Precedence → ParserSt →
    PRes ExprErrorKind (Option Expr × ParserSt)
  | 0, _, _, _, _ => .panic
  | fuel + 1, prec, left, tp, p =>
    if Precedence.blt tp prec then do
      let (tok, p1) ← nextToken p
      match tok with
      | none => pure (none, p1)
      | some (.Operator op) => do
        let (right, p2) ← mustParsePrecF fuel tp p1
        beforeLoopF fuel prec (Expr.Infix left op right) p2
      | some .QuestionMark => do
        let (on_true, p2) ← mustParsePrecF fuel tp p1
        let (tok2, p3) ← nextToken p2
        match tok2 with
        | some .Colon => do
          let (on_false, p4) ← mustParsePrecF fuel tp p3
          beforeLoopF fuel prec (Expr.Condition left on_true on_false) p4
        | _ => .err .ExpectingTernaryElse
      | some .Comma => pure (some left, p1)
      | some .Colon => pure (some left, p1)
      | some .RightParen => pure (some left, p1)
      | some .LeftParen => .err .InvalidInfixOperator
      | some _ => .panic
    else pure (some left, p)

/-- The `expect_infix!` macro followed by the loop test: end of input ends
the expression, a non-infix token is `InvalidInfixOperator`. -/
def beforeLoopF : Nat → Precedence → Expr → ParserSt →
    PRes ExprErrorKind (Option Expr × ParserSt)
  | 0, _, _, _ => .panic
  | fuel + 1, prec, left, p =>
    match p.peek with
    | none => pure (some left, p)
    | some t =>
      match Precedence.from_token t with
      | none => .err .InvalidInfixOperator
      | some tp => parseLoopF fuel prec left tp p

end

/-- Fuel ample for any input of this length (the parser consumes at most a
bounded amount of fuel per input token). -/
def parseFuel (s : String) : Nat := 8 * s.length + 32

/-- `parser::parse` / `Parser::parse`. -/
def parseExpr (s : String) : PRes ExprErrorKind Expr := do
  let (_, p1) ← nextToken ⟨s.data, none⟩
  let (v, _) ← mustParsePrecF (parseFuel s) .Separator p1
  pure v

/-- Structural size of an expression, for the evaluator fuel bound. -/
def sizeE : Expr → Nat
  | .Number _ => 1
  | .Variable _ => 1
  | .Infix l _ r => 1 + sizeE l + sizeE r
  | .Prefix _ r => 1 + sizeE r
  | .Suffix _ l => 1 + sizeE l
  | .Condition c t f => 1 + sizeE c + sizeE t + sizeE f

def opToString : Operator → String
  | .Add => "+"
  | .Subtract => "-"
  | .Multiply => "*"
  | .Divide => "/"
  | .Modulo => "%"
  | .LeftShift => "<<"
  | .RightShift => ">>"
  | .LessThan => "<"
  | .LessThanOrEqual => "<="
  | .GreaterThan => ">"
  | .GreaterThanOrEqual => ">="
  | .Equal => "=="
  | .NotEqual => "!="
  | .BitAnd => "&"
  | .BitExclusiveOr => "^"
  | .BitOr => "|"
  | .And => "&&"
  | .Or => "||"
  | .Assign => "="
  | .AssignAdd => "+="
  | .AssignSubtract => "-="
  | .AssignMultiply => "*="
  | .AssignDivide => "/="
  | .AssignModulo => "%="
  | .AssignBitAnd => "&="
  | .AssignBitExclusiveOr => "^="
  | .AssignBitOr => "|="
  | .AssignLeftShift => "<<="
  | .AssignRightShift => ">>="
  | .Not => "!"
  | .Negate => "~"
  | .Increment => "++"
  | .Decrement => "--"

/-- The `fmt::Display` impl for `Expr`. -/
def exprToString : Expr → String
  | .Condition c t f =>
    exprToString c ++ " ? " ++ exprToString t ++ " : " ++ exprToString f
  | .Number n => renderNum n
  | .Variable v => v
  | .Prefix op r => opToString op ++ exprToString r
  | .Suffix op l => exprToString l ++ opToString op
  | .Infix l op r => exprToString l ++ " " ++ opToString op ++ " " ++ exprToString r

/-- `expr::eval` of src/expr/mod.rs: parse, evaluate, render. -/
def exprEval (s : String) (st : EState) : PRes ExprErrorKind (String × EState) := do
  let e ← parseExpr s
  match evaluateF (2 * sizeE e + 4) e st with
  | some (r, st1) => pure (exprToString r, st1)
  | none => .panic

/- Shell words and their expansion (src/lang/word.rs). -/

/-- `Token` of src/lang/word.rs (word parts).  Where the Rust type holds a
`Word` (a struct wrapping `Vec<Token>`) the Lean constructor holds the part
list directly. -/
inductive WordToken
  | Tilde
  | WildcardString
  | WildcardChar
  | Unquoted (w : List WordToken)
  | Quoted (w : List WordToken)
  | Multi (ws : List (List WordToken))
  | Regex
  | Escape (c : Char)
  | Parameter (name : String) (op : Char) (w : List WordToken)
  | Variable (name : String)
  | Command (w : List WordToken)
  | Expr (w : List WordToken)
  | QuotedCommand (s : String)
  | Slice (s : String)

/-- `Word` (its `parts` vector). -/
abbrev Word := List WordToken

/-- `ErrorKind` of src/lang/errors.rs (job ids and fds as plain numbers). -/
inductive LangErrorKind
  | ExpressionError
  | SysError
  | MissingExecutable (name : String)
  | IllegalNullByte
  | IllegalExecutableName
  | WaitFailed
  | ExecFailed
  | PipelineCreationFailed
  | ForkFailed
  | InvalidJobId (jid : Nat)
  | FailedToClosePipeFile (fd : Int)
  | SigWaitFailed
deriving DecidableEq, Repr

/-- The escape-character mapping of `Word::compile` (match arms in source
order; the fall-through arm produces U+FFFD). -/
def escapeChar (v : Char) : Char :=
  match v with
  | 'n' => '\n'
  | 't' => '\t'
  | '"' => '"'
  | '\'' => '\''
  | ' ' => ' '
  | '$' => '$'
  | '|' => '|'
  | '\n' => '\n'
  | '`' => '`'
  | _ => '�'

mutual

/-- `Word::compile`: fold the parts left to right, accumulating the output
string and threading the variable store. -/
def compileParts : Word → EState → PRes LangErrorKind (String × EState)
  | [], st => .ok ("", st)
  | t :: ts, st =>
    match compileTok t st with
    | .ok (s1, st1) =>
      match compileParts ts st1 with
      | .ok (s2, st2) => .ok (s1 ++ s2, st2)
      | .err e => .err e
      | .panic => .panic
    | .err e => .err e
    | .panic => .panic

/-- One part of `Word::compile` (match arms in source order; the arms the
code leaves `unimplemented!` panic). -/
def compileTok : WordToken → EState → PRes LangErrorKind (String × EState)
  | .Tilde, st => .ok (storeValueD st.vars "HOME", st)
  | .Slice v, st => .ok (v, st)
  | .Expr v, st =>
    match compileParts v st with
    | .ok (sub, st1) =>
      match exprEval sub st1 with
      | .ok (res, st2) => .ok (res, st2)
      | .err _ => .err .ExpressionError
      | .panic => .panic
    | .err e => .err e
    | .panic => .panic
  | .Variable v, st => .ok (storeValueD st.vars v, st)
  | .Escape v, st => .ok (String.singleton (escapeChar v), st)
  | .Quoted v, st => compileParts v st
  | _, _ => .panic

end

/- The subprocess launcher (src/jobs/spawn.rs). -/

inductive OpenMode
  | Read
  | Write
  | Append
deriving DecidableEq, Repr

inductive FdOp
  | Redirect (target : Int)
  | Open (path : String) (mode : OpenMode)
  | Close
deriving DecidableEq, Repr

/-- `ProcessOptions`: the child-process plan. -/
structure ProcessOptions where
  args : List String
  wd : Option String
  executable : String
  env : List (String × String)
  fd : List (Int × FdOp)
deriving DecidableEq, Repr

def ProcessOptions.new (exe : String) : ProcessOptions := ⟨[], none, exe, [], []⟩

def ProcessOptions.arg (p : ProcessOptions) (a : String) : ProcessOptions :=
  { p with args := p.args ++ [a] }

/-- `ProcessOptions::env` (named apart from the field). -/
def ProcessOptions.envPush (p : ProcessOptions) (k v : String) : ProcessOptions :=
  { p with env := p.env ++ [(k, v)] }

def ProcessOptions.work_dir (p : ProcessOptions) (d : String) : ProcessOptions :=
  { p with wd := some d }

def ProcessOptions.close (p : ProcessOptions) (fd : Int) : ProcessOptions :=
  { p with fd := p.fd ++ [(fd, .Close)] }

def ProcessOptions.redirect (p : ProcessOptions) (src target : Int) : ProcessOptions :=
  { p with fd := p.fd ++ [(src, .Redirect target)] }

/-- `std::env::set_var`: overwrite in place or append. -/
def envSet (e : List (String × String)) (k v : String) : List (String × String) :=
  if (mapGet e k).isSome then e.map (fun kv => if kv.1 = k then (k, v) else kv)
  else e ++ [(k, v)]

/-- The environment-mutation half of `setup_subprocess`: apply the plan's
extra pairs to the environment the child inherited from the parent (fd
operations and chdir are not modelled; no claim depends on them). -/
def setup_subprocess_env (parent : List (String × String)) (opts : ProcessOptions) :
    List (String × String) :=
  opts.env.foldl (fun e kv => envSet e kv.1 kv.2) parent

/-- Environment rendered as `K=V` entries, the shape `execve`'s `envp`
argument takes. -/
def renderEnv (e : List (String × String)) : List String :=
  e.map (fun kv => kv.1 ++ "=" ++ kv.2)

/-- The `execve` invocation: executable, argv and the envp slice passed. -/
structure ExecveCall where
  executable : String
  argv : List String
  envp : List String
deriving DecidableEq, Repr

/-- The error `exec_subprocess` can produce before reaching `execve` (the
other `SubprocessSetupError` variants carry OS errors from fd setup, which
is not modelled). -/
inductive SubprocessSetupError
  | ArgContainsNull (arg_number : Nat) (arg : String)
deriving DecidableEq, Repr

def strContainsNull (s : String) : Bool := s.data.any (fun c => c.toNat = 0)

def firstNullArg : Nat → List String → Option (Nat × String)
  | _, [] => none
  | i, a :: rest =>
    if strContainsNull a then some (i, a) else firstNullArg (i + 1) rest

/-- `exec_subprocess` of src/jobs/spawn.rs: after the null-byte checks the
code calls `execve(&c_exe, &c_args, &[])` — the envp slice at the call site
is the empty slice literal, so the returned call record has `envp = []`. -/
def exec_subprocess (exe : String) (args : List String) :
    Except SubprocessSetupError ExecveCall :=
  if strContainsNull exe then .error (.ArgContainsNull 0 exe)
  else
    match firstNullArg 1 args with
    | some (i, a) => .error (.ArgContainsNull i a)
    | none => .ok { executable := exe, argv := args, envp := [] }

/- The command AST (src/lang/ast.rs) and the job manager (src/lang/exec.rs). -/

inductive ConditionOperator
  | AndIf
  | OrIf
deriving DecidableEq, Repr

inductive IoOperation
  | Input
  | OutputCreate
  | Output
  | OutputAppend
  | HereDocument
  | HereDocumentStrip
  | InputDupFd
  | OutputDupFd
  | ReadWrite
deriving DecidableEq, Repr

structure RedirectDestination where
  operation : IoOperation
  fd : Option Int
  file : Word

/-- `Command` of src/lang/ast.rs.  Boxed payload structs are flattened into
constructor fields; `Pipeline`'s `from`/`to` are `src`/`dst` (`from` is a
Lean keyword). -/
inductive Command
  | SimpleCommand (arguments : List Word)
  | Pipeline (bang : Bool) (src : Command) (dst : Command)
  | FileRedirect (left : Command) (redirects : List RedirectDestination)
  | ConditionalPair (left : Command) (operator : ConditionOperator) (right : Command)
  | Group (commands : List Command)
  | BraceGroup (commands : List Command)
  | SubShell (commands : List Command)
  | If (condition success failure : Command)
  | Case (input : Word) (cases : List (Word × Command))
  | While (condition body : Command)
  | For (condition body : Command)
  | Until (condition body : Command)
  | Function (name : Word) (body : Command)
  | Comment (s : String)

/-- `ExitStatus` of src/lang/exec.rs (pids and signals as plain numbers). -/
structure ExitStatus where
  pid : Nat
  exit_code : Int
  core_dumped : Bool
  signal : Option Nat
deriving DecidableEq, Repr

/-- `JobManager` state: running map keyed by pid (value: jid), completed map
keyed by jid. -/
structure JobManager where
  next_jid : Nat
  running_jobs : List (Nat × Nat)
  completed_jobs : List (Nat × ExitStatus)
deriving DecidableEq, Repr

/-- One `fork` recorded by the modelled OS. -/
structure SpawnEvent where
  pid : Nat
  executable : String
  argv : List String
deriving DecidableEq, Repr

/-- The modelled operating system: a pid counter, an fd counter for `pipe`,
the queue of forked children that `wait` reaps in FIFO order (pid and the
exit code the child will exit with), and the log of forks. -/
structure OS where
  next_pid : Nat
  next_fd : Int
  children : List (Nat × Int)
  events : List SpawnEvent
deriving DecidableEq, Repr

/-- Ambient-system oracle: the shell's own pid (`getpid`), each spawned
command's eventual exit code, and filesystem existence for `PATH` search. -/
structure Sys where
  parent_pid : Nat
  exitOf : String → List String → Int
  fsExists : String → Bool

/-- `ExecutionContext`: working directory, variable store, function store
(name to stored body). -/
structure ExecutionContext where
  cwd : String
  vars : EState
  funcs : List (String × Command)

/-- `str::starts_with`. -/
def strStartsWith (s pre : String) : Bool := (stripPrefixL pre.data s.data).isSome

def splitOnColonGo : List Char → List Char → List String
  | [], acc => [String.mk acc.reverse]
  | ':' :: rest, acc => String.mk acc.reverse :: splitOnColonGo rest []
  | c :: rest, acc => splitOnColonGo rest (c :: acc)

/-- `env::split_paths` over the `PATH` value. -/
def splitPaths (s : String) : List String :=
  if s = "" then [] else splitOnColonGo s.data []

/-- `PathBuf::join` for the relevant shapes. -/
def pathJoin (dir file : String) : String :=
  if dir = "" then file else dir ++ "/" ++ file

/-- `ExecutionContext::find_executable`: first existing `PATH` entry joined
with the program name, else `MissingExecutable`. -/
def find_executable (sys : Sys) (ec : ExecutionContext) (prog : String) :
    PRes LangErrorKind String :=
  match (splitPaths (storeValueD ec.vars.vars "PATH")).find?
      (fun d => sys.fsExists (pathJoin d prog)) with
  | some d => .ok (pathJoin d prog)
  | none => .err (.MissingExecutable prog)

/-- `ProcessOptions::spawn` on the modelled OS: allocate the pid, enqueue the
child with its eventual exit code, log the fork. -/
def osSpawn (sys : Sys) (proc : ProcessOptions) (os : OS) : Nat × OS :=
  let pid := os.next_pid
  (pid,
   { os with
     next_pid := os.next_pid + 1
     children := os.children ++ [(pid, sys.exitOf proc.executable proc.args)]
     events := os.events ++ [⟨pid, proc.executable, proc.args⟩] })

/-- `JobManager::add_job`. -/
def addJob (jm : JobManager) (pid : Nat) : Nat × JobManager :=
  (jm.next_jid,
   { next_jid := jm.next_jid + 1
     running_jobs := mapSet jm.running_jobs pid jm.next_jid
     completed_jobs := jm.completed_jobs })

/-- The `wait` loop of `JobManager::next`: reap children until one whose pid
is in the running map appears; children not in the map are drained and
dropped.  Note the running map is read, never written. -/
def jmNextGo (running : List (Nat × Nat)) :
    List (Nat × Int) → Option ((Nat × ExitStatus) × List (Nat × Int))
  | [] => none
  | (pid, code) :: rest =>
    match mapGet running pid with
    | some jid => some ((jid, ⟨pid, code, false, none⟩), rest)
    | none => jmNextGo running rest

/-- `JobManager::next`: `wait` with no children left errors (`WaitFailed`). -/
def jmNext (jm : JobManager) (os : OS) :
    PRes LangErrorKind ((Nat × ExitStatus) × OS) :=
  match jmNextGo jm.running_jobs os.children with
  | some (r, rest) => .ok (r, { os with children := rest })
  | none => .err .WaitFailed

/-- The `while !incomplete.is_empty()` loop of `JobManager::await_all`.  The
fuel starts above the child count; every iteration consumes at least one
child, so the fuel never runs out before `jmNext` either succeeds or
errors. -/
def awaitAllGo : Nat → List Nat → JobManager → OS → PRes LangErrorKind (JobManager × OS)
  | 0, _, _, _ => .panic
  | fuel + 1, incomplete, jm, os =>
    if incomplete.isEmpty then .ok (jm, os)
    else
      match jmNext jm os with
      | .ok ((jid, status), os') =>
        awaitAllGo fuel (incomplete.filter (fun j => j ≠ jid))
          { jm with completed_jobs := mapSet jm.completed_jobs jid status } os'
      | .err e => .err e
      | .panic => .panic

/-- `JobManager::await_all`. -/
def awaitAll (jids : List Nat) (jm : JobManager) (os : OS) :
    PRes LangErrorKind (JobManager × OS) :=
  awaitAllGo (os.children.length + 1)
    (jids.filter (fun j => mapGet jm.completed_jobs j = none)) jm os

/-- `jobs_left.last().map(|r| completed.get(r).unwrap().exit_code).unwrap_or(0)`
from the `ConditionalPair` branch. -/
def lastExitCode (jm : JobManager) (jids : List Nat) : PRes LangErrorKind Int :=
  match jids.getLast? with
  | none => .ok 0
  | some j =>
    match mapGet jm.completed_jobs j with
    | some s => .ok s.exit_code
    | none => .panic

/-- The exec-internal `ProcOptions` (close list, extra env, stdin/stdout
redirect fds). -/
structure ProcOptions where
  close_fds : List Int
  env : List (String × String)
  stdin : Option Int
  stdout : Option Int

/-- The `for arg in cmd.arguments.iter().skip(1)` compile loop of the
`SimpleCommand` branch (compile errors contexted to `ExecFailed`). -/
def compileArgsGo : List Word → EState → ProcessOptions →
    PRes LangErrorKind (ProcessOptions × EState)
  | [], st, proc => .ok (proc, st)
  | w :: ws, st, proc =>
    match compileParts w st with
    | .ok (s, st1) => compileArgsGo ws st1 (proc.arg s)
    | .err _ => .err .ExecFailed
    | .panic => .panic

mutual

/-- `JobManager::spawn_procs_from_ast`.  The returned tuple carries the jids
of the spawned direct children plus the threaded context, manager and OS
state.  Unhandled node kinds (`_ => unimplemented!()`) panic. -/
def spawnProcs : Nat → Sys → ProcOptions → ExecutionContext → Command →
    JobManager → OS → PRes LangErrorKind (List Nat × ExecutionContext × JobManager × OS)
  | 0, _, _, _, _, _, _ => .panic
  | fuel + 1, sys, opts, ec, cmd, jm, os =>
    match cmd with
    | .SimpleCommand args =>
      match args with
      | [] => .panic
      | w0 :: rest =>
        (match compileParts w0 ec.vars with
         | .err _ => .err .ExecFailed
         | .panic => .panic
         | .ok (argv0, vars1) =>
           let ec1 : ExecutionContext := { ec with vars := vars1 }
           match mapGet ec1.funcs argv0 with
           | some body => spawnProcs fuel sys opts ec1 body jm os
           | none => do
             let exe ←
               (if strStartsWith argv0 "./" then pure argv0
                else find_executable sys ec1 argv0)
             let proc0 := (ProcessOptions.new exe).arg argv0
             match compileArgsGo rest ec1.vars proc0 with
             | .err e => .err e
             | .panic => .panic
             | .ok (proc1, vars2) =>
               let ec2 : ExecutionContext := { ec1 with vars := vars2 }
               let proc2 := opts.env.foldl (fun pr kv => pr.envPush kv.1 kv.2) proc1
               let proc3 := proc2.work_dir ec2.cwd
               let proc4 :=
                 match opts.stdin with
                 | some fdi => (proc3.redirect fdi 0).close fdi
                 | none => proc3
               let proc5 :=
                 match opts.stdout with
                 | some fdo => (proc4.redirect fdo 1).close fdo
                 | none => proc4
               let proc6 := opts.close_fds.foldl (fun pr f => pr.close f) proc5
               let (pid, os1) := osSpawn sys proc6 os
               let (jid, jm1) := addJob jm pid
               .ok ([jid], ec2, jm1, os1))
    | .Pipeline _bang src dst => do
      let stdinFd := os.next_fd
      let stdoutFd := os.next_fd + 1
      let os0 : OS := { os with next_fd := os.next_fd + 2 }
      let close_from :=
        (opts.close_fds ++ [stdinFd]) ++
          (match opts.stdout with | some o => [o] | none => [])
      let to_from :=
        (opts.close_fds ++ [stdoutFd]) ++
          (match opts.stdin with | some i => [i] | none => [])
      let from_opts : ProcOptions := ⟨close_from, opts.env, opts.stdin, some stdoutFd⟩
      let to_opts : ProcOptions := ⟨to_from, opts.env, some stdinFd, opts.stdout⟩
      let (jids1, ec1, jm1, os1) ← spawnProcs fuel sys from_opts ec src jm os0
      let (jids2, ec2, jm2, os2) ← spawnProcs fuel sys to_opts ec1 dst jm1 os1
      .ok (jids1 ++ jids2, ec2, jm2, os2)
    | .BraceGroup cmds =>
      (match runGroupGo fuel sys opts ec cmds jm os with
       | .ok (_, jm1, os1) => .ok ([], ec, jm1, os1)
       | .err e => .err e
       | .panic => .panic)
    | .Group cmds =>
      (match runGroupGo fuel sys opts ec cmds jm os with
       | .ok (ec1, jm1, os1) => .ok ([], ec1, jm1, os1)
       | .err e => .err e
       | .panic => .panic)
    | .ConditionalPair left op right => do
      let (jobs_left, ec1, jm1, os1) ← spawnProcs fuel sys opts ec left jm os
      let (jm2, os2) ← awaitAll jobs_left jm1 os1
      let exit_code ← lastExitCode jm2 jobs_left
      if (exit_code = 0 ∧ op = .AndIf) ∨ (exit_code ≠ 0 ∧ op = .OrIf) then do
        let (jobs_right, ec2, jm3, os3) ← spawnProcs fuel sys opts ec1 right jm2 os2
        let (jm4, os4) ← awaitAll jobs_right jm3 os3
        .ok (jobs_right, ec2, jm4, os4)
      else .ok (jobs_left, ec1, jm2, os2)
    | .Function name body =>
      (match compileParts name ec.vars with
       | .ok (str_name, vars1) =>
         .ok ([], { ec with vars := vars1, funcs := mapSet ec.funcs str_name body }, jm, os)
       | .err e => .err e
       | .panic => .panic)
    | .Comment _ => .ok ([], ec, jm, os)
    | _ => .panic
termination_by structural fuel _ _ _ _ _ _ => fuel

/-- The sequential `for cmd in &group.commands` loop shared by the `Group`
and `BraceGroup` branches: spawn, await, continue. -/
def runGroupGo : Nat → Sys → ProcOptions → ExecutionContext → List Command →
    JobManager → OS → PRes LangErrorKind (ExecutionContext × JobManager × OS)
  | 0, _, _, _, _, _, _ => .panic
  | _ + 1, _, _, ec, [], jm, os => .ok (ec, jm, os)
  | fuel + 1, sys, opts, ec, c :: cs, jm, os => do
    let (jids, ec1, jm1, os1) ← spawnProcs fuel sys opts ec c jm os
    let (jm2, os2) ← awaitAll jids jm1 os1
    runGroupGo fuel sys opts ec1 cs jm2 os2
termination_by structural fuel _ _ _ _ _ _ => fuel

end

/-- The `ExitStatus` `run` synthesises when the tree produced no children. -/
def synthExit (sys : Sys) : ExitStatus := ⟨sys.parent_pid, 0, false, none⟩

/-- `JobManager::run`: spawn the tree, await every produced jid, return the
last jid's cached record, or the synthesised code-0 record when there is
none. -/
def run (fuel : Nat) (sys : Sys) (ec : ExecutionContext) (cmd : Command)
    (jm : JobManager) (os : OS) :
    PRes LangErrorKind (ExitStatus × ExecutionContext × JobManager × OS) := do
  let (jids, ec1, jm1, os1) ←
    spawnProcs fuel sys ⟨[], [], none, none⟩ ec cmd jm os
  let (jm2, os2) ← awaitAll jids jm1 os1
  match jids.getLast? with
  | some id =>
    (match mapGet jm2.completed_jobs id with
     | some s => .ok (s, ec1, jm2, os2)
     | none => .panic)
  | none => .ok (synthExit sys, ec1, jm2, os2)

/- Concrete fixtures for witnesses and counterexamples. -/

/-- Oracle for the demonstrations: parent pid 1000, `./false` exits 1 and
everything else 0, no files on disk (commands are invoked as `./name` so the
`PATH` search is never consulted). -/
def sysDemo : Sys := ⟨1000, fun exe _ => if exe = "./false" then 1 else 0, fun _ => false⟩

def ecEmpty : ExecutionContext := ⟨"/", ⟨[], []⟩, []⟩

def jmInit : JobManager := ⟨0, [], []⟩

def osInit : OS := ⟨7, 30, [], []⟩

def cmdTrue : Command := .SimpleCommand [[WordToken.Slice "./true"]]

def cmdFalse : Command := .SimpleCommand [[WordToken.Slice "./false"]]

/-- Projection of a `run` result onto its decidable components (the
execution context holds command trees, which carry no decidable equality). -/
def runOutcome (r : PRes LangErrorKind (ExitStatus × ExecutionContext × JobManager × OS)) :
    Option (ExitStatus × JobManager × OS) :=
  match r with
  | .ok (s, _, jm, os) => some (s, jm, os)
  | _ => none

/- General-purpose lemmas about the embedding. -/

theorem PRes.bind_ok {ε α β : Type} (a : α) (f : α → PRes ε β) :
    PRes.bind (.ok a) f = f a := rfl

theorem PRes.bind_err {ε α β : Type} (e : ε) (f : α → PRes ε β) :
    PRes.bind (.err e) f = .err e := rfl

theorem PRes.bind_panic {ε α β : Type} (f : α → PRes ε β) :
    PRes.bind (.panic : PRes ε α) f = .panic := rfl

theorem mapGet_mapSet_self {κ α : Type} [DecidableEq κ] (m : List (κ × α)) (k : κ) (v : α) :
    mapGet (mapSet m k v) k = some v := by
  simp [mapGet, mapSet]

theorem mapGet_mapSet_isSome {κ α : Type} [DecidableEq κ] (m : List (κ × α)) (k j : κ) (v : α)
    (h : (mapGet m j).isSome) : (mapGet (mapSet m k v) j).isSome := by
  by_cases hk : k = j <;> simp [mapGet, mapSet, hk, h]

theorem defineVar_log_grows (st : EState) (k v : String) :
    st.log <+: (defineVar st k v).log := by
  simp [defineVar]

theorem obind_some {α β : Type} (a : α) (f : α → Option β) :
    ((some a : Option α) >>= f) = f a := rfl

theorem obind_none {α β : Type} (f : α → Option β) :
    ((none : Option α) >>= f) = none := rfl

theorem log_of_eq {st st' : EState} (h : st = st') : st.log <+: st'.log := by
  rw [h]

theorem PRes.ok_bind {ε α β : Type} (a : α) (f : α → PRes ε β) :
    ((PRes.ok a : PRes ε α) >>= f) = f a := rfl

theorem PRes.err_bind {ε α β : Type} (e : ε) (f : α → PRes ε β) :
    ((PRes.err e : PRes ε α) >>= f) = .err e := rfl

theorem PRes.panic_bind {ε α β : Type} (f : α → PRes ε β) :
    ((PRes.panic : PRes ε α) >>= f) = .panic := rfl

/-- The evaluator and its helpers only ever append to the write log: the
log of the input state is a prefix of the log of the output state. -/
theorem evalLog_mono : ∀ fuel,
    (∀ e st r st', evaluateF fuel e st = some (r, st') → st.log <+: st'.log) ∧
    (∀ e st f r st', modify_variableF fuel e st f = some (r, st') → st.log <+: st'.log) ∧
    (∀ e st f r st', assign_variableF fuel e st f = some (r, st') → st.log <+: st'.log) ∧
    (∀ e st f r st', modify_numberF fuel e st f = some (r, st') → st.log <+: st'.log) ∧
    (∀ e st f r st', modify_number_iF fuel e st f = some (r, st') → st.log <+: st'.log) := by
  intro fuel
  induction fuel with
  | zero =>
    refine ⟨?_, ?_, ?_, ?_, ?_⟩
    · intro e st r st' h; exact absurd h (by simp [evaluateF])
    · intro e st f r st' h; exact absurd h (by simp [modify_variableF])
    · intro e st f r st' h; exact absurd h (by simp [assign_variableF])
    · intro e st f r st' h; exact absurd h (by simp [modify_numberF])
    · intro e st f r st' h; exact absurd h (by simp [modify_number_iF])
  | succ fl ih =>
    obtain ⟨ihE, ihMV, ihAV, ihMN, ihMNI⟩ := ih
    refine ⟨?_, ?_, ?_, ?_, ?_⟩
    · -- `Expr::evaluate`
      intro e st r st' h
      cases e with
      | Number n =>
        simp only [evaluateF, Option.some.injEq, Prod.mk.injEq] at h
        exact log_of_eq h.2
      | Variable n =>
        simp only [evaluateF, Option.some.injEq, Prod.mk.injEq] at h
        exact log_of_eq h.2
      | Condition c t fb =>
        simp only [evaluateF] at h
        cases hc : evaluateF fl c st with
        | none => rw [hc, obind_none] at h; exact absurd h (by simp)
        | some p =>
          obtain ⟨cv, st1⟩ := p
          rw [hc, obind_some] at h
          by_cases hb : asBoolean cv = true
          · rw [if_pos hb] at h
            exact (ihE c st _ _ hc).trans (ihE t st1 _ _ h)
          · rw [if_neg hb] at h
            exact (ihE c st _ _ hc).trans (ihE fb st1 _ _ h)
      | Prefix op right =>
        cases op <;> simp only [evaluateF] at h
        all_goals first
          | exact ihMV _ _ _ _ _ h
          | exact ihMN _ _ _ _ _ h
          | exact ihE _ _ _ _ h
          | exact Option.noConfusion h
          | (split at h <;>
              (simp only [Option.some.injEq, Prod.mk.injEq] at h
               exact log_of_eq h.2))
      | Suffix op left =>
        simp only [evaluateF] at h
        cases hc : evaluateF fl left st with
        | none => rw [hc, obind_none] at h; exact Option.noConfusion h
        | some p =>
          obtain ⟨copy, st1⟩ := p
          simp only [hc, obind_some] at h
          have h0 : st.log <+: st1.log := ihE left st _ _ hc
          cases op
          case Increment =>
            cases hm : modify_variableF fl left st1 (fun v => Q.add v 1) with
            | none => rw [hm, obind_none] at h; exact Option.noConfusion h
            | some q =>
              obtain ⟨mv, st2⟩ := q
              simp only [hm, obind_some, Option.some.injEq, Prod.mk.injEq] at h
              exact (h0.trans (ihMV _ _ _ _ _ hm)).trans (log_of_eq h.2)
          case Decrement =>
            cases hm : modify_variableF fl left st1 (fun v => Q.sub v 1) with
            | none => rw [hm, obind_none] at h; exact Option.noConfusion h
            | some q =>
              obtain ⟨mv, st2⟩ := q
              simp only [hm, obind_some, Option.some.injEq, Prod.mk.injEq] at h
              exact (h0.trans (ihMV _ _ _ _ _ hm)).trans (log_of_eq h.2)
          all_goals exact Option.noConfusion h
      | Infix l op r' =>
        simp only [evaluateF] at h
        cases hr : evaluateF fl r' st with
        | none => rw [hr, obind_none] at h; exact Option.noConfusion h
        | some p =>
          obtain ⟨rres, st1⟩ := p
          simp only [hr, obind_some] at h
          have h0 : st.log <+: st1.log := ihE r' st _ _ hr
          cases rres
          case Variable n => exact Option.noConfusion h
          case Infix a b c => exact Option.noConfusion h
          case Prefix a b => exact Option.noConfusion h
          case Suffix a b => exact Option.noConfusion h
          case Condition a b c => exact Option.noConfusion h
          case Number rv =>
            cases op
            case And =>
              cases hl : evaluateF fl l st1 with
              | none =>
                simp only [obind_some, hl, obind_none] at h
                exact Option.noConfusion h
              | some q =>
                obtain ⟨lv, st2⟩ := q
                simp only [obind_some, hl] at h
                have h1 : st1.log <+: st2.log := ihE l st1 _ _ hl
                by_cases hb : asBoolean lv = true
                · rw [if_pos hb] at h
                  cases hrr : evaluateF fl r' st2 with
                  | none => rw [hrr, obind_none] at h; exact Option.noConfusion h
                  | some w =>
                    obtain ⟨rv2, st3⟩ := w
                    simp only [hrr, obind_some] at h
                    have h2 : st2.log <+: st3.log := ihE r' st2 _ _ hrr
                    split at h <;>
                      (simp only [Option.some.injEq, Prod.mk.injEq] at h
                       exact ((h0.trans h1).trans h2).trans (log_of_eq h.2))
                · rw [if_neg hb] at h
                  simp only [Option.some.injEq, Prod.mk.injEq] at h
                  exact (h0.trans h1).trans (log_of_eq h.2)
            case Or =>
              cases hl : evaluateF fl l st1 with
              | none =>
                simp only [obind_some, hl, obind_none] at h
                exact Option.noConfusion h
              | some q =>
                obtain ⟨lv, st2⟩ := q
                simp only [obind_some, hl] at h
                have h1 : st1.log <+: st2.log := ihE l st1 _ _ hl
                by_cases hb : asBoolean lv = true
                · rw [if_pos hb] at h
                  simp only [Option.some.injEq, Prod.mk.injEq] at h
                  exact (h0.trans h1).trans (log_of_eq h.2)
                · rw [if_neg hb] at h
                  cases hrr : evaluateF fl r' st2 with
                  | none => rw [hrr, obind_none] at h; exact Option.noConfusion h
                  | some w =>
                    obtain ⟨rv2, st3⟩ := w
                    simp only [hrr, obind_some] at h
                    have h2 : st2.log <+: st3.log := ihE r' st2 _ _ hrr
                    split at h <;>
                      (simp only [Option.some.injEq, Prod.mk.injEq] at h
                       exact ((h0.trans h1).trans h2).trans (log_of_eq h.2))
            all_goals first
              | exact h0.trans (ihMN _ _ _ _ _ h)
              | exact h0.trans (ihMNI _ _ _ _ _ h)
              | exact h0.trans (ihAV _ _ _ _ _ h)
              | exact Option.noConfusion h
    · -- `Expr::modify_variable`
      intro e st f r st' h
      cases e with
      | Variable n =>
        simp only [modify_variableF, Option.some.injEq, Prod.mk.injEq] at h
        rw [← h.2]
        exact defineVar_log_grows st n _
      | _ =>
        simp only [modify_variableF] at h
        cases he : evaluateF fl _ st with
        | none => rw [he, obind_none] at h; exact absurd h (by simp)
        | some p =>
          obtain ⟨me, st1⟩ := p
          rw [he, obind_some] at h
          have h0 : st.log <+: st1.log := ihE _ st _ _ he
          cases me <;> simp only [Option.some.injEq, Prod.mk.injEq] at h
          all_goals first
            | (rw [← h.2]; exact h0.trans (defineVar_log_grows st1 _ _))
            | exact h0.trans (log_of_eq h.2)
    · -- `Expr::assign_variable`
      intro e st f r st' h
      cases e with
      | Variable n =>
        simp only [assign_variableF, Option.some.injEq, Prod.mk.injEq] at h
        rw [← h.2]
        exact defineVar_log_grows st n _
      | _ =>
        simp only [assign_variableF] at h
        cases he : evaluateF fl _ st with
        | none => rw [he, obind_none] at h; exact absurd h (by simp)
        | some p =>
          obtain ⟨me, st1⟩ := p
          rw [he, obind_some] at h
          have h0 : st.log <+: st1.log := ihE _ st _ _ he
          cases me
          case Variable n =>
            simp only [Option.some.injEq, Prod.mk.injEq] at h
            rw [← h.2]
            exact h0.trans (defineVar_log_grows st1 _ _)
          all_goals exact h0.trans (ihE _ st1 _ _ h)
    · -- `Expr::modify_number`
      intro e st f r st' h
      simp only [modify_numberF] at h
      cases he : evaluateF fl e st with
      | none => rw [he, obind_none] at h; exact absurd h (by simp)
      | some p =>
        obtain ⟨me, st1⟩ := p
        rw [he, obind_some] at h
        have h0 : st.log <+: st1.log := ihE e st _ _ he
        cases me <;> simp only [Option.some.injEq, Prod.mk.injEq] at h <;>
          exact h0.trans (log_of_eq h.2)
    · -- `Expr::modify_number_i`
      intro e st f r st' h
      simp only [modify_number_iF] at h
      cases he : evaluateF fl e st with
      | none => rw [he, obind_none] at h; exact absurd h (by simp)
      | some p =>
        obtain ⟨me, st1⟩ := p
        rw [he, obind_some] at h
        have h0 : st.log <+: st1.log := ihE e st _ _ he
        cases me <;> simp only [Option.some.injEq, Prod.mk.injEq] at h <;>
          exact h0.trans (log_of_eq h.2)

/-- Invariants of the `await_all` reaping loop: the running map and the jid
counter are untouched, completed records persist, and every member of the
incomplete set ends up completed. -/
theorem awaitAllGo_spec :
    ∀ fuel inc jm os jm' os',
      awaitAllGo fuel inc jm os = .ok (jm', os') →
      jm'.running_jobs = jm.running_jobs ∧ jm'.next_jid = jm.next_jid ∧
      (∀ k, (mapGet jm.completed_jobs k).isSome → (mapGet jm'.completed_jobs k).isSome) ∧
      (∀ j, j ∈ inc → (mapGet jm'.completed_jobs j).isSome) := by
  intro fuel
  induction fuel with
  | zero =>
    intro inc jm os jm' os' h
    exact absurd h (by simp [awaitAllGo])
  | succ f ih =>
    intro inc jm os jm' os' h
    rw [awaitAllGo] at h
    by_cases hinc : inc.isEmpty
    · rw [if_pos hinc] at h
      simp only [PRes.ok.injEq, Prod.mk.injEq] at h
      obtain ⟨h1, _⟩ := h
      subst h1
      refine ⟨rfl, rfl, fun k hk => hk, fun j hj => ?_⟩
      rw [List.isEmpty_iff] at hinc
      subst hinc
      exact absurd hj (List.not_mem_nil j)
    · rw [if_neg hinc] at h
      cases hn : jmNext jm os with
      | err e => rw [hn] at h; exact absurd h (by simp)
      | panic => rw [hn] at h; exact absurd h (by simp)
      | ok p =>
        obtain ⟨⟨jid, status⟩, os1⟩ := p
        rw [hn] at h
        obtain ⟨h1, h2, h3, h4⟩ := ih (inc.filter (fun j => j ≠ jid))
          { jm with completed_jobs := mapSet jm.completed_jobs jid status } os1 jm' os' h
        refine ⟨h1, h2, ?_, ?_⟩
        · intro k hk
          exact h3 k (mapGet_mapSet_isSome _ _ _ _ hk)
        · intro j hj
          by_cases hjj : j = jid
          · subst hjj
            exact h3 j (by rw [mapGet_mapSet_self]; rfl)
          · exact h4 j (List.mem_filter.mpr ⟨hj, by simp [hjj]⟩)

/- Claim C1 (code_bug).  The spec requires `&&`/`||` to short-circuit: the
right operand must not be evaluated (so none of its variable reads/writes
may happen) when the left operand decides the result.  `Expr::evaluate`'s
`Infix` arm instead evaluates `inf.right` once before dispatching on the
operator, so the right side's store writes always happen. -/

/-- C1: evaluating `0 && (a = 5)` writes `a = 5` to the store although the
left operand is false, and `1 || (a = 5)` writes it although the left
operand is true; the numeric results are still 0 and 1.  This contradicts
the claim that no write caused by the right operand occurs in those
cases. -/
theorem and_or_right_operand_evaluated_eagerly :
    evaluateF 9 (.Infix (.Number 0) .And (.Infix (.Variable "a") .Assign (.Number 5)))
        ⟨[], []⟩ =
      some (.Number 0, ⟨[("a", "5")], [("a", "5")]⟩) ∧
    evaluateF 9 (.Infix (.Number 1) .Or (.Infix (.Variable "a") .Assign (.Number 5)))
        ⟨[], []⟩ =
      some (.Number 1, ⟨[("a", "5")], [("a", "5")]⟩) := by
  exact ⟨by decide, by decide⟩

/- Claim C3 (code_bug).  `setup_subprocess` applies the plan's extra env
pairs with `env::set_var`, but `exec_subprocess` then calls
`execve(&c_exe, &c_args, &[])` with the empty envp slice, so the exec'd
image sees an empty environment rather than the parent's environment plus
the extras that the `ProcessOptions::env` doc comment promises. -/

/-- C3: every successful `exec_subprocess` passes the empty envp to
`execve`; the environment `setup_subprocess` prepared (parent plus extras)
is non-empty in the demonstration and is not what `execve` receives. -/
theorem exec_subprocess_passes_empty_envp :
    (∀ exe args call, exec_subprocess exe args = .ok call → call.envp = []) ∧
    renderEnv (setup_subprocess_env [("PATH", "/bin")]
        ((ProcessOptions.new "/bin/echo").envPush "K" "V")) = ["PATH=/bin", "K=V"] ∧
    (["PATH=/bin", "K=V"] : List String) ≠ [] := by
  refine ⟨?_, by decide, by decide⟩
  intro exe args call h
  unfold exec_subprocess at h
  split at h
  · exact absurd h (by simp)
  · split at h
    · exact absurd h (by simp)
    · simp only [Except.ok.injEq] at h
      rw [← h]

/-- C3 witness: the general theorem applied at a concrete call. -/
theorem exec_subprocess_passes_empty_envp_witness :
    ({ executable := "/bin/echo", argv := ["echo"], envp := [] } : ExecveCall).envp = [] :=
  exec_subprocess_passes_empty_envp.1 "/bin/echo" ["echo"] ⟨"/bin/echo", ["echo"], []⟩ rfl

/- Claim C6 (corrected).  The claim (and the spec's precedence list) places
bit-xor tighter than bit-or; the `Precedence` enum in src/expr/types.rs
declares `BitOr` before `BitExclusiveOr`, so under the discriminant order
bit-or binds tighter and `a | b ^ c` parses as `(a | b) ^ c`. -/

/-- C6 counterexample: `a | b ^ c` parses to `(a | b) ^ c`, not the claimed
`a | (b ^ c)`. -/
theorem bitxor_bitor_precedence_cx :
    parseExpr "a | b ^ c" =
      .ok (.Infix (.Infix (.Variable "a") .BitOr (.Variable "b"))
            .BitExclusiveOr (.Variable "c")) ∧
    (Expr.Infix (.Infix (.Variable "a") .BitOr (.Variable "b"))
        .BitExclusiveOr (.Variable "c")) ≠
      .Infix (.Variable "a") .BitOr
        (.Infix (.Variable "b") .BitExclusiveOr (.Variable "c")) := by
  exact ⟨by decide, by decide⟩

/-- C6 amended: in the parser's precedence order bit-or binds more tightly
than bit-xor (the order is bit-and, then bit-or, then bit-xor), and
`a | b ^ c` therefore parses as `(a | b) ^ c`. -/
theorem bitor_tighter_than_bitxor :
    Precedence.blt (Precedence.from_operator .BitAnd) (Precedence.from_operator .BitOr) = true ∧
    Precedence.blt (Precedence.from_operator .BitOr)
      (Precedence.from_operator .BitExclusiveOr) = true ∧
    parseExpr "a | b ^ c" =
      .ok (.Infix (.Infix (.Variable "a") .BitOr (.Variable "b"))
            .BitExclusiveOr (.Variable "c")) := by
  exact ⟨by decide, by decide, by decide⟩

/- Claim C7 (corrected).  The escape match in `Word::compile` maps
`n t " ' space $ | LF backtick` and sends every other character — including
backslash, `&`, `{` and `}`, which the claim says are preserved — to
U+FFFD. -/

/-- C7 counterexample: expanding the escape part `\\` yields U+FFFD, not a
backslash. -/
theorem escape_backslash_yields_replacement_cx :
    compileParts [.Escape '\\'] ⟨[], []⟩ = .ok ("�", ⟨[], []⟩) ∧
    ("�" : String) ≠ "\\" := by
  exact ⟨by decide, by decide⟩

/-- C7 amended: `Escape c` expands to exactly one character: `n` to LF, `t`
to TAB, the two quotes, space, `$`, `|`, LF and backtick to themselves, and
every other character — including backslash, `&`, `{`, `}` — to U+FFFD. -/
theorem escape_expansion_table :
    (∀ st : EState, compileTok (.Escape 'n') st = .ok ("\n", st)) ∧
    (∀ st : EState, compileTok (.Escape 't') st = .ok ("\t", st)) ∧
    (∀ st : EState, compileTok (.Escape '"') st = .ok ("\"", st)) ∧
    (∀ st : EState, compileTok (.Escape '\'') st = .ok ("'", st)) ∧
    (∀ st : EState, compileTok (.Escape ' ') st = .ok (" ", st)) ∧
    (∀ st : EState, compileTok (.Escape '$') st = .ok ("$", st)) ∧
    (∀ st : EState, compileTok (.Escape '|') st = .ok ("|", st)) ∧
    (∀ st : EState, compileTok (.Escape '\n') st = .ok ("\n", st)) ∧
    (∀ st : EState, compileTok (.Escape '`') st = .ok ("`", st)) ∧
    (∀ c (st : EState),
      c ∉ (['n', 't', '"', '\'', ' ', '$', '|', '\n', '`'] : List Char) →
      compileTok (.Escape c) st = .ok ("�", st)) := by
  refine ⟨fun _ => rfl, fun _ => rfl, fun _ => rfl, fun _ => rfl, fun _ => rfl,
    fun _ => rfl, fun _ => rfl, fun _ => rfl, fun _ => rfl, ?_⟩
  intro c st hc
  have he : escapeChar c = '�' := by
    unfold escapeChar
    split <;> simp_all
  simp [compileTok, he]
  rfl

/-- C7 witness: the catch-all arm of the amended table applied at `&`. -/
theorem escape_expansion_table_witness :
    compileTok (.Escape '&') ⟨[], []⟩ = .ok ("�", ⟨[], []⟩) :=
  escape_expansion_table.2.2.2.2.2.2.2.2.2 '&' ⟨[], []⟩ (by decide)

/- Claim C9 (confirmed): the four parser error cases. -/

/-- C9: `2 * (1 + 2` fails with `ExpectingRightParentheses`, `2 * 1 +` with
`UnexpectedEof`, `*hi` with `InvalidPrefixOperator`, and a lone backtick
with `InvalidCharacter` of the backtick. -/
theorem parser_error_cases :
    parseExpr "2 * (1 + 2" = .err .ExpectingRightParentheses ∧
    parseExpr "2 * 1 +" = .err .UnexpectedEof ∧
    parseExpr "*hi" = .err .InvalidPrefixOperator ∧
    parseExpr "`" = .err (.InvalidCharacter '`') := by
  exact ⟨by decide, by decide, by decide, by decide⟩

/- Claim C2 (corrected).  `JobManager::next` reads the running map with
`get` but nothing ever calls `running_jobs.remove`; `await`/`await_all`
only insert into the completed map.  So after a reap the pid is still in
the running map although its exit record has been stored — the claimed
iff invariant fails, and the claimed removal does not happen. -/

/-- C2 counterexample: after `run` of a single `./false` command, the
child's pid 7 still appears in the running map even though its exit record
(jid 0) has been stored in the completed map. -/
theorem reaped_pid_stays_in_running_map_cx :
    (runOutcome (run 8 sysDemo ecEmpty cmdFalse jmInit osInit)).map
        (fun t => ((mapGet t.2.1.running_jobs 7).isSome,
                   (mapGet t.2.1.completed_jobs 0).isSome)) =
      some (true, true) := by
  decide

/-- C2 amended: when a child is reaped its exit record is inserted into the
completed map, every awaited jid ends up completed, and the running map
and the jid counter are left untouched (the pid is never removed). -/
theorem awaitAll_keeps_running_and_completes :
    ∀ jids jm os jm' os' j,
      awaitAll jids jm os = .ok (jm', os') → j ∈ jids →
      jm'.running_jobs = jm.running_jobs ∧ jm'.next_jid = jm.next_jid ∧
      (mapGet jm'.completed_jobs j).isSome = true := by
  intro jids jm os jm' os' j h hj
  obtain ⟨h1, h2, h3, h4⟩ := awaitAllGo_spec _ _ _ _ _ _ h
  refine ⟨h1, h2, ?_⟩
  by_cases hc : mapGet jm.completed_jobs j = none
  · exact h4 j (List.mem_filter.mpr ⟨hj, by simp [hc]⟩)
  · cases hcase : mapGet jm.completed_jobs j with
    | none => exact absurd hcase hc
    | some s => exact h3 j (by rw [hcase]; rfl)

/-- C2 witness: the amended theorem applied at a one-job await. -/
theorem awaitAll_keeps_running_and_completes_witness :
    ([(7, 0)] : List (Nat × Nat)) = [(7, 0)] ∧ (1 : Nat) = 1 ∧
    (mapGet ([(0, ⟨7, 1, false, none⟩)] : List (Nat × ExitStatus)) 0).isSome = true :=
  awaitAll_keeps_running_and_completes [0] ⟨1, [(7, 0)], []⟩ ⟨8, 30, [(7, 1)], []⟩
    ⟨1, [(7, 0)], [(0, ⟨7, 1, false, none⟩)]⟩ ⟨8, 30, [], []⟩ 0 (by decide) (by decide)

/- Claim C4 (corrected).  The `BraceGroup` arm of `spawn_procs_from_ast`
awaits each child inside the loop but returns `Ok(Vec::new())`, so `run`
never sees a jid for a brace group and always falls back to the
synthesised code-0 record, even when the group ran children. -/

/-- C4 counterexample: running `{ ./false }` (whose only child exits 1)
returns the synthesised record — parent pid 1000, exit code 0 — although
the group's last child's stored record is pid 7, exit code 1. -/
theorem brace_group_returns_synthesised_cx :
    runOutcome (run 8 sysDemo ecEmpty (.BraceGroup [cmdFalse]) jmInit osInit) =
      some (⟨1000, 0, false, none⟩,
        ⟨1, [(7, 0)], [(0, ⟨7, 1, false, none⟩)]⟩,
        ⟨8, 30, [], [⟨7, "./false", ["./false"]⟩]⟩) ∧
    (⟨1000, 0, false, none⟩ : ExitStatus) ≠ ⟨7, 1, false, none⟩ := by
  exact ⟨by decide, by decide⟩

/-- The `BraceGroup` arm returns no jids (and the caller's context is
returned unchanged). -/
theorem spawnProcs_brace_group_no_jids :
    ∀ fuel sys opts ec cmds jm os jids ec' jm' os',
      spawnProcs fuel sys opts ec (.BraceGroup cmds) jm os = .ok (jids, ec', jm', os') →
      jids = [] ∧ ec' = ec := by
  intro fuel sys opts ec cmds jm os jids ec' jm' os' h
  cases fuel with
  | zero => exact absurd h (by simp [spawnProcs])
  | succ f =>
    rw [spawnProcs] at h
    cases hg : runGroupGo f sys opts ec cmds jm os with
    | ok t =>
      obtain ⟨ec1, jm1, os1⟩ := t
      rw [hg] at h
      simp only [PRes.ok.injEq, Prod.mk.injEq] at h
      exact ⟨h.1.symm, h.2.1.symm⟩
    | err e => rw [hg] at h; exact absurd h (by simp)
    | panic => rw [hg] at h; exact absurd h (by simp)

/-- C4 amended: for every brace group — with or without children — `run`
returns the synthesised code-0 record (pid = the shell's own pid), because
the group branch produces an empty jid list. -/
theorem run_brace_group_synthesises_exit :
    ∀ fuel sys ec cmds jm os st jm' os',
      runOutcome (run fuel sys ec (.BraceGroup cmds) jm os) = some (st, jm', os') →
      st = synthExit sys := by
  intro fuel sys ec cmds jm os st jm' os' h
  unfold run at h
  cases hs : spawnProcs fuel sys ⟨[], [], none, none⟩ ec (.BraceGroup cmds) jm os with
  | err e => rw [hs] at h; exact absurd h (by simp [PRes.err_bind, runOutcome])
  | panic => rw [hs] at h; exact absurd h (by simp [PRes.panic_bind, runOutcome])
  | ok t =>
    obtain ⟨jids, ec1, jm1, os1⟩ := t
    obtain ⟨hjids, _⟩ := spawnProcs_brace_group_no_jids _ _ _ _ _ _ _ _ _ _ _ hs
    subst hjids
    rw [hs] at h
    have ha : awaitAll [] jm1 os1 = .ok (jm1, os1) := by
      simp [awaitAll, awaitAllGo]
    rw [PRes.ok_bind] at h
    simp only [ha, PRes.ok_bind] at h
    simp only [List.getLast?_nil, runOutcome, Option.some.injEq, Prod.mk.injEq] at h
    exact h.1.symm

/-- C4 witness: the amended theorem applied at the concrete brace group of
the counterexample. -/
theorem run_brace_group_synthesises_exit_witness :
    (⟨1000, 0, false, none⟩ : ExitStatus) = synthExit sysDemo :=
  run_brace_group_synthesises_exit 8 sysDemo ecEmpty [cmdFalse] jmInit osInit
    ⟨1000, 0, false, none⟩ ⟨1, [(7, 0)], [(0, ⟨7, 1, false, none⟩)]⟩
    ⟨8, 30, [], [⟨7, "./false", ["./false"]⟩]⟩ (by decide)

/- Claim C5 (confirmed): the `ConditionalPair` dispatch. -/

/-- C5: given that the left side spawned jobs `jl`, awaiting them
succeeded, and the last job's exit code is `code` (0 when the left side
produced no jobs), executing the conditional pair spawns and awaits the
right side exactly when (`AndIf` and `code = 0`) or (`OrIf` and
`code ≠ 0`), returning the right side's jids; otherwise it short-circuits
and returns the left side's jids and state, so `run` reports the left
side's exit record. -/
theorem conditional_pair_runs_right_iff :
    ∀ fuel sys opts ec left op right jm os jl ec1 jm1 os1 jm2 os2 code,
      spawnProcs fuel sys opts ec left jm os = .ok (jl, ec1, jm1, os1) →
      awaitAll jl jm1 os1 = .ok (jm2, os2) →
      lastExitCode jm2 jl = .ok code →
      spawnProcs (fuel + 1) sys opts ec (.ConditionalPair left op right) jm os =
        (if (code = 0 ∧ op = .AndIf) ∨ (code ≠ 0 ∧ op = .OrIf) then
          match spawnProcs fuel sys opts ec1 right jm2 os2 with
          | .ok (jr, ec2, jm3, os3) =>
            (match awaitAll jr jm3 os3 with
             | .ok (jm4, os4) => .ok (jr, ec2, jm4, os4)
             | .err e => .err e
             | .panic => .panic)
          | .err e => .err e
          | .panic => .panic
        else .ok (jl, ec1, jm2, os2)) := by
  intro fuel sys opts ec left op right jm os jl ec1 jm1 os1 jm2 os2 code h1 h2 h3
  rw [spawnProcs]
  simp only [h1, h2, h3, PRes.ok_bind]
  by_cases hcond : (code = 0 ∧ op = ConditionOperator.AndIf) ∨
      (¬code = 0 ∧ op = ConditionOperator.OrIf)
  · rw [if_pos hcond, if_pos hcond]
    cases hr : spawnProcs fuel sys opts ec1 right jm2 os2 with
    | ok t =>
      obtain ⟨jr, ec2, jm3, os3⟩ := t
      simp only [PRes.ok_bind]
      cases ha : awaitAll jr jm3 os3 with
      | ok w => obtain ⟨jm4, os4⟩ := w; simp only [PRes.ok_bind]
      | err e => simp only [PRes.err_bind]
      | panic => simp only [PRes.panic_bind]
    | err e => simp only [PRes.err_bind]
    | panic => simp only [PRes.panic_bind]
  · rw [if_neg hcond, if_neg hcond]

/-- C5 witness: the theorem applied to `./true && ./false` (left exits 0,
`AndIf`), whose condition selects the right branch. -/
theorem conditional_pair_runs_right_iff_witness :
    spawnProcs 8 sysDemo ⟨[], [], none, none⟩ ecEmpty
        (.ConditionalPair cmdTrue .AndIf cmdFalse) jmInit osInit =
      (if ((0 : Int) = 0 ∧ ConditionOperator.AndIf = .AndIf) ∨
          ((0 : Int) ≠ 0 ∧ ConditionOperator.AndIf = .OrIf) then
        match spawnProcs 7 sysDemo ⟨[], [], none, none⟩ ecEmpty cmdFalse
            ⟨1, [(7, 0)], [(0, ⟨7, 0, false, none⟩)]⟩
            ⟨8, 30, [], [⟨7, "./true", ["./true"]⟩]⟩ with
        | .ok (jr, ec2, jm3, os3) =>
          (match awaitAll jr jm3 os3 with
           | .ok (jm4, os4) => .ok (jr, ec2, jm4, os4)
           | .err e => .err e
           | .panic => .panic)
        | .err e => .err e
        | .panic => .panic
      else .ok ([0], ecEmpty, ⟨1, [(7, 0)], [(0, ⟨7, 0, false, none⟩)]⟩,
        ⟨8, 30, [], [⟨7, "./true", ["./true"]⟩]⟩)) :=
  conditional_pair_runs_right_iff 7 sysDemo ⟨[], [], none, none⟩ ecEmpty
    cmdTrue .AndIf cmdFalse jmInit osInit [0] ecEmpty
    ⟨1, [(7, 0)], []⟩ ⟨8, 30, [(7, 0)], [⟨7, "./true", ["./true"]⟩]⟩
    ⟨1, [(7, 0)], [(0, ⟨7, 0, false, none⟩)]⟩
    ⟨8, 30, [], [⟨7, "./true", ["./true"]⟩]⟩ 0 rfl rfl rfl

/- Claim C8 (confirmed): the suffix decrement. -/

/-- C8: when variable `v` holds text parsing to the number `n`, evaluating
`v--` returns `n` (the pre-modification value) and redefines `v` to render
`n - 1` — subtracted, never incremented — which is exactly what a
subsequent read of `v` sees. -/
theorem suffix_decrement_subtracts_one :
    ∀ fuel v st n,
      parseFloatQ (storeValueD st.vars v) = some n →
      evaluateF (fuel + 2) (.Suffix .Decrement (.Variable v)) st =
        some (.Number n, defineVar st v (renderNum (Q.sub n 1))) ∧
      storeValueD (defineVar st v (renderNum (Q.sub n 1))).vars v =
        renderNum (Q.sub n 1) := by
  intro fuel v st n h
  constructor
  · simp [evaluateF, modify_variableF, obind_some, floatValueD, h]
  · simp [defineVar, storeValueD, mapGet_mapSet_self]

/-- C8 witness: `x--` with `x = "5"` returns 5 and stores "4". -/
theorem suffix_decrement_subtracts_one_witness :
    (evaluateF 12 (.Suffix .Decrement (.Variable "x")) ⟨[("x", "5")], []⟩ =
      some (.Number (Q.ofInt 5),
        defineVar ⟨[("x", "5")], []⟩ "x" (renderNum (Q.sub (Q.ofInt 5) 1)))) ∧
    storeValueD (defineVar ⟨[("x", "5")], []⟩ "x"
        (renderNum (Q.sub (Q.ofInt 5) 1))).vars "x" =
      renderNum (Q.sub (Q.ofInt 5) 1) :=
  suffix_decrement_subtracts_one 10 "x" ⟨[("x", "5")], []⟩ (Q.ofInt 5) (by decide)

/- Claim C10 (confirmed): for every infix node the right operand is
evaluated first, its store writes landing before the left operand is
touched. -/

/-- C10: if an infix node evaluates successfully then its right operand
evaluates successfully from the original state, and the write log it
produces is a prefix of the final log (its writes happen first and
persist); the example `(a = 1) + (a = 2)` logs the write `a = 2` before
`a = 1` and leaves `a` bound to "1". -/
theorem infix_right_operand_evaluated_first :
    (∀ fuel l op r st v st',
      evaluateF (fuel + 1) (.Infix l op r) st = some (v, st') →
      ∃ rv st1, evaluateF fuel r st = some (rv, st1) ∧
        st.log <+: st1.log ∧ st1.log <+: st'.log) ∧
    evaluateF 12
        (.Infix (.Infix (.Variable "a") .Assign (.Number 1)) .Add
          (.Infix (.Variable "a") .Assign (.Number 2))) ⟨[], []⟩ =
      some (.Number 3, ⟨[("a", "1"), ("a", "2")], [("a", "2"), ("a", "1")]⟩) ∧
    storeValueD [("a", "1"), ("a", "2")] "a" = "1" := by
  refine ⟨?_, by decide, by decide⟩
  intro fuel l op r st v st' h
  obtain ⟨ihE, ihMV, ihAV, ihMN, ihMNI⟩ := evalLog_mono fuel
  simp only [evaluateF] at h
  cases hr : evaluateF fuel r st with
  | none => rw [hr, obind_none] at h; exact Option.noConfusion h
  | some p =>
    obtain ⟨rres, st1⟩ := p
    refine ⟨rres, st1, rfl, ihE r st _ _ hr, ?_⟩
    simp only [hr, obind_some] at h
    cases rres
    case Variable n => exact Option.noConfusion h
    case Infix a b c => exact Option.noConfusion h
    case Prefix a b => exact Option.noConfusion h
    case Suffix a b => exact Option.noConfusion h
    case Condition a b c => exact Option.noConfusion h
    case Number rv =>
      cases op
      case And =>
        cases hl : evaluateF fuel l st1 with
        | none =>
          simp only [obind_some, hl, obind_none] at h
          exact Option.noConfusion h
        | some q =>
          obtain ⟨lv, st2⟩ := q
          simp only [obind_some, hl] at h
          have h1 : st1.log <+: st2.log := ihE l st1 _ _ hl
          by_cases hb : asBoolean lv = true
          · rw [if_pos hb] at h
            cases hrr : evaluateF fuel r st2 with
            | none => rw [hrr, obind_none] at h; exact Option.noConfusion h
            | some w =>
              obtain ⟨rv2, st3⟩ := w
              simp only [hrr, obind_some] at h
              have h2 : st2.log <+: st3.log := ihE r st2 _ _ hrr
              split at h <;>
                (simp only [Option.some.injEq, Prod.mk.injEq] at h
                 exact (h1.trans h2).trans (log_of_eq h.2))
          · rw [if_neg hb] at h
            simp only [Option.some.injEq, Prod.mk.injEq] at h
            exact h1.trans (log_of_eq h.2)
      case Or =>
        cases hl : evaluateF fuel l st1 with
        | none =>
          simp only [obind_some, hl, obind_none] at h
          exact Option.noConfusion h
        | some q =>
          obtain ⟨lv, st2⟩ := q
          simp only [obind_some, hl] at h
          have h1 : st1.log <+: st2.log := ihE l st1 _ _ hl
          by_cases hb : asBoolean lv = true
          · rw [if_pos hb] at h
            simp only [Option.some.injEq, Prod.mk.injEq] at h
            exact h1.trans (log_of_eq h.2)
          · rw [if_neg hb] at h
            cases hrr : evaluateF fuel r st2 with
            | none => rw [hrr, obind_none] at h; exact Option.noConfusion h
            | some w =>
              obtain ⟨rv2, st3⟩ := w
              simp only [hrr, obind_some] at h
              have h2 : st2.log <+: st3.log := ihE r st2 _ _ hrr
              split at h <;>
                (simp only [Option.some.injEq, Prod.mk.injEq] at h
                 exact (h1.trans h2).trans (log_of_eq h.2))
      all_goals first
        | exact ihMN _ _ _ _ _ h
        | exact ihMNI _ _ _ _ _ h
        | exact ihAV _ _ _ _ _ h
        | exact Option.noConfusion h

/-- C10 witness: the general component applied to `(a = 1) + (a = 2)`. -/
theorem infix_right_operand_evaluated_first_witness :
    ∃ rv st1,
      evaluateF 11 (.Infix (.Variable "a") .Assign (.Number 2)) ⟨[], []⟩ =
        some (rv, st1) ∧
      (⟨[], []⟩ : EState).log <+: st1.log ∧
      st1.log <+: ([("a", "2"), ("a", "1")] : List (String × String)) :=
  infix_right_operand_evaluated_first.1 11
    (.Infix (.Variable "a") .Assign (.Number 1)) .Add
    (.Infix (.Variable "a") .Assign (.Number 2)) ⟨[], []⟩
    (.Number 3) ⟨[("a", "1"), ("a", "2")], [("a", "2"), ("a", "1")]⟩ (by decide)

end Rush
